import Mathlib

/-!
# CloudFront distribution table (`aws/table_aws_cloudfront_distribution.go`)

A shallow embedding of the Go source of the `aws_cloudfront_distribution`
table: the record type `distributionInfo`, the list hydrate
`listAwsCloudfrontDistribution`, the get hydrate `getCloudfrontDistribution`,
the tag hydrate `getCloudfrontDistributionTags`, the transform
`cloudfrontDistributionTagListToTurbotTags` and the column table.

The AWS SDK pager, the helper `isNotFoundError` and the attribute resolver
that serves columns from hydrate results are not part of this source file; the
definitions that stand for them say so.

Conventions of the embedding:
* a Go pointer (and a nil-able slice) is an `Option`; dereferencing `none`
  is the run-time panic `Panic.nilDereference`;
* a Go function returning `(interface{}, error)` returns
  `Except Panic (Option α × Option GoError)`;
* a Go `map[string]string` is a finite map `Finmap` from `String` to `String`;
* nested AWS SDK structures that the source only copies are `Blob`s.
-/

namespace Cloudfront

/-! ## Go runtime -/

/-- Run-time panics reachable in the source. -/
inductive Panic where
  | nilDereference
  | interfaceConversion
  deriving DecidableEq, Repr

/-- Go `error` values: an `awserr.Error` carrying a code, or any other error. -/
inductive GoError where
  | awsErr (code : String) (message : String)
  | other (message : String)
  deriving DecidableEq, Repr

/-- Result of a Go function of type `(interface{}, error)`: either a panic, or
the returned pair, where `none` is Go's `nil`. -/
abbrev Go (α : Type) := Except Panic (Option α × Option GoError)

/-- Pointer dereference `*p`. -/
def deref {α : Type} : Option α → Except Panic α
  | some a => .ok a
  | none => .error .nilDereference

/-- Nested SDK structure that the source copies without inspecting it. -/
abbrev Blob := String

/-! ## Tags -/

/-- SDK type `cloudfront.Tag`: both fields are `*string`. -/
structure Tag where
  Key : Option String
  Value : Option String
  deriving DecidableEq, Repr

/-- Go `map[string]string`. -/
abbrev TagMap := Finmap (fun _ : String => String)

/-- Loop body `turbotTagsMap[*i.Key] = *i.Value` for one `i : *cloudfront.Tag`. -/
def assignTag (turbotTagsMap : TagMap) (i : Option Tag) : Except Panic TagMap := do
  let t ← deref i
  let k ← deref t.Key
  let v ← deref t.Value
  pure (turbotTagsMap.insert k v)

/-- Transform `cloudfrontDistributionTagListToTurbotTags`, applied to
`d.Value.([]*cloudfront.Tag)`: `none` is the nil slice. -/
def cloudfrontDistributionTagListToTurbotTags (tagList : Option (List (Option Tag))) :
    Go TagMap :=
  match tagList with
  | some tags =>
    match tags.foldlM assignTag (∅ : TagMap) with
    | .ok turbotTagsMap => .ok (some turbotTagsMap, none)
    | .error p => .error p
  | none => .ok (none, none)

/-- A tag entry that is non-nil and has both a key and a value. -/
def Tag.complete : Option Tag → Bool
  | some ⟨some _, some _⟩ => true
  | _ => false

/-- A (possibly nil) tag list all of whose entries are complete. -/
def tagListComplete : Option (List (Option Tag)) → Bool
  | some tags => tags.all Tag.complete
  | none => true

/-- Key of a tag entry, when it has one. -/
def Tag.key? : Option Tag → Option String
  | some t => t.Key
  | none => none

/-- Value of a tag entry, when it has one. -/
def Tag.value? : Option Tag → Option String
  | some t => t.Value
  | none => none

/-- The last entry of the list whose key is `k`. -/
def lastEntry (k : String) (tags : List (Option Tag)) : Option (Option Tag) :=
  tags.reverse.find? (fun i => decide (Tag.key? i = some k))

/-- Value of the last entry of the list whose key is `k`. -/
def lastValue (k : String) (tags : List (Option Tag)) : Option String :=
  (lastEntry k tags).bind Tag.value?

/-- The tag-list entry `&cloudfront.Tag{Key: &k, Value: &v}` of a map entry. -/
def Tag.ofEntry (e : (_ : String) × String) : Option Tag :=
  some ⟨some e.1, some e.2⟩

/-! ## SDK data model -/

/-- SDK type `cloudfront.DistributionSummary`. Every field is a pointer (or a
slice); a field left out of a composite literal is nil. -/
structure DistributionSummary where
  ARN : Option String := none
  AliasICPRecordals : Option Blob := none
  Aliases : Option Blob := none
  CacheBehaviors : Option Blob := none
  Comment : Option String := none
  CustomErrorResponses : Option Blob := none
  DefaultCacheBehavior : Option Blob := none
  DomainName : Option String := none
  Enabled : Option Bool := none
  HttpVersion : Option String := none
  Id : Option String := none
  IsIPV6Enabled : Option Bool := none
  LastModifiedTime : Option Int := none
  OriginGroups : Option Blob := none
  Origins : Option Blob := none
  PriceClass : Option String := none
  Restrictions : Option Blob := none
  Status : Option String := none
  ViewerCertificate : Option Blob := none
  WebACLId : Option String := none
  deriving DecidableEq, Repr

/-- SDK type `cloudfront.DistributionConfig`. -/
structure DistributionConfig where
  Aliases : Option Blob := none
  CacheBehaviors : Option Blob := none
  CallerReference : Option String := none
  Comment : Option String := none
  CustomErrorResponses : Option Blob := none
  DefaultCacheBehavior : Option Blob := none
  DefaultRootObject : Option String := none
  Enabled : Option Bool := none
  HttpVersion : Option String := none
  IsIPV6Enabled : Option Bool := none
  Logging : Option Blob := none
  OriginGroups : Option Blob := none
  Origins : Option Blob := none
  PriceClass : Option String := none
  Restrictions : Option Blob := none
  ViewerCertificate : Option Blob := none
  WebACLId : Option String := none
  deriving DecidableEq, Repr

/-- SDK type `cloudfront.Distribution`. -/
structure Distribution where
  ARN : Option String := none
  ActiveTrustedKeyGroups : Option Blob := none
  ActiveTrustedSigners : Option Blob := none
  AliasICPRecordals : Option Blob := none
  DistributionConfig : Option DistributionConfig := none
  DomainName : Option String := none
  Id : Option String := none
  InProgressInvalidationBatches : Option Int := none
  LastModifiedTime : Option Int := none
  Status : Option String := none
  deriving DecidableEq, Repr

/-- SDK type `cloudfront.GetDistributionOutput`. -/
structure GetDistributionOutput where
  Distribution : Option Distribution := none
  ETag : Option String := none
  deriving DecidableEq, Repr

/-- SDK type `cloudfront.DistributionList` (the fields the source reads). -/
structure DistributionList where
  Items : List (Option DistributionSummary) := []
  deriving DecidableEq, Repr

/-- SDK type `cloudfront.ListDistributionsOutput`. -/
structure ListDistributionsOutput where
  DistributionList : Option DistributionList := none
  deriving DecidableEq, Repr

/-- SDK type `cloudfront.Tags`. -/
structure Tags where
  Items : Option (List (Option Tag)) := none
  deriving DecidableEq, Repr

/-- SDK type `cloudfront.ListTagsForResourceOutput`. -/
structure ListTagsForResourceOutput where
  Tags : Option Tags := none
  deriving DecidableEq, Repr

/-- The record type of the table: the Go struct `distributionInfo`, which embeds
`cloudfront.DistributionSummary` and adds five pointer fields. -/
structure distributionInfo extends DistributionSummary where
  DistributionConfig : Option DistributionConfig := none
  ActiveTrustedKeyGroups : Option Blob := none
  ActiveTrustedSigners : Option Blob := none
  InProgressInvalidationBatches : Option Int := none
  Etag : Option String := none
  deriving DecidableEq, Repr

/-- The CloudFront client `svc` as the source uses it: the pages that
`ListDistributionsPages` delivers (each with its `isLast` flag) and the error it
ends with, and the answers of `GetDistribution` and `ListTagsForResource`. -/
structure CloudFront where
  pages : List (ListDistributionsOutput × Bool)
  pagesErr : Option GoError
  GetDistribution : String → Except GoError GetDistributionOutput
  ListTagsForResource : Option String → Except GoError ListTagsForResourceOutput

/-! ## List hydrate -/

/-- The loop `for _, parameter := range page.DistributionList.Items` of the page
callback: the items handed to `d.StreamListItem`, in order, and whether the loop
completed or panicked on `*parameter`. -/
def streamItems : List (Option DistributionSummary) → List distributionInfo × Except Panic Unit
  | [] => ([], .ok ())
  | none :: _ => ([], .error .nilDereference)
  | some parameter :: rest =>
    let r := streamItems rest
    ({ toDistributionSummary := parameter } :: r.1, r.2)

/-- The callback passed to `ListDistributionsPages`: streams the items of the
page and returns `!isLast`. -/
def pageCallback (page : ListDistributionsOutput) (isLast : Bool) :
    List distributionInfo × Except Panic Bool :=
  match page.DistributionList with
  | none => ([], .error .nilDereference)
  | some dl =>
    match streamItems dl.Items with
    | (out, .ok _) => (out, .ok (!isLast))
    | (out, .error p) => (out, .error p)

/-- Modelled from the spec: the SDK pager `ListDistributionsPages` is not part of
the source. It hands each page with its `isLast` flag to the callback, in
order, stops as soon as the callback returns false, and returns the error the
paging ended with. The streamed items accumulate in order. -/
def ListDistributionsPages
    (fn : ListDistributionsOutput → Bool → List distributionInfo × Except Panic Bool) :
    List (ListDistributionsOutput × Bool) → Option GoError →
      List distributionInfo × Except Panic (Option GoError)
  | [], err => ([], .ok err)
  | (page, isLast) :: rest, err =>
    match fn page isLast with
    | (out, .error p) => (out, .error p)
    | (out, .ok false) => (out, .ok none)
    | (out, .ok true) =>
      let r := ListDistributionsPages fn rest err
      (out ++ r.1, r.2)

/-- List hydrate `listAwsCloudfrontDistribution`. The argument is the result of
`CloudFrontService(ctx, d)`. Returns the items streamed with
`d.StreamListItem`, in order, and the call's result `(nil, err)`. -/
def listAwsCloudfrontDistribution (session : Except GoError CloudFront) :
    List distributionInfo × Go Unit :=
  match session with
  | .error err => ([], .ok (none, some err))
  | .ok svc =>
    match ListDistributionsPages pageCallback svc.pages svc.pagesErr with
    | (out, .ok err) => (out, .ok (none, err))
    | (out, .error p) => (out, .error p)

/-! ## Get hydrate -/

/-- Get hydrate `getCloudfrontDistribution`. `session` is the result of
`CloudFrontService(ctx, d)`, `item` is `h.Item` (nil for a point lookup) and
`idQual` is `d.KeyColumnQuals["id"].GetStringValue()`. -/
def getCloudfrontDistribution (session : Except GoError CloudFront)
    (item : Option distributionInfo) (idQual : String) : Go distributionInfo :=
  match session with
  | .error err => .ok (none, some err)
  | .ok svc =>
    let id : Except Panic String :=
      match item with
      | some info => deref info.Id
      | none => .ok idQual
    match id with
    | .error p => .error p
    | .ok cloudfrontID =>
      match svc.GetDistribution cloudfrontID with
      | .error err => .ok (none, some err)
      | .ok op =>
        match op.Distribution with
        | none => .error .nilDereference
        | some distribution =>
          match distribution.DistributionConfig with
          | none => .error .nilDereference
          | some config =>
            .ok (some {
              toDistributionSummary := {
                ARN := distribution.ARN
                Id := distribution.Id
                DomainName := distribution.DomainName
                Status := distribution.Status
                LastModifiedTime := distribution.LastModifiedTime
                AliasICPRecordals := distribution.AliasICPRecordals
                Enabled := config.Enabled
                HttpVersion := config.HttpVersion
                IsIPV6Enabled := config.IsIPV6Enabled
                PriceClass := config.PriceClass
                WebACLId := config.WebACLId
                Comment := config.Comment
                Origins := config.Origins
                Aliases := config.Aliases
                CacheBehaviors := config.CacheBehaviors
                DefaultCacheBehavior := config.DefaultCacheBehavior }
              DistributionConfig := distribution.DistributionConfig
              ActiveTrustedKeyGroups := distribution.ActiveTrustedKeyGroups
              ActiveTrustedSigners := distribution.ActiveTrustedSigners
              InProgressInvalidationBatches := distribution.InProgressInvalidationBatches
              Etag := op.ETag }, none)

/-- Tag hydrate `getCloudfrontDistributionTags`; `item` is `h.Item`, asserted to
be a `distributionInfo`. -/
def getCloudfrontDistributionTags (session : Except GoError CloudFront)
    (item : distributionInfo) : Go ListTagsForResourceOutput :=
  match session with
  | .error err => .ok (none, some err)
  | .ok svc =>
    match svc.ListTagsForResource item.ARN with
    | .error err => .ok (none, some err)
    | .ok op => .ok (some op, none)

/-! ## Table definition -/

/-- Column types `proto.ColumnType_*` used by the table. -/
inductive ColumnType where
  | STRING | BOOL | TIMESTAMP | JSON | INT
  deriving DecidableEq, Repr

/-- The hydrate functions defined in the source. -/
inductive HydrateFunc where
  | listAwsCloudfrontDistribution
  | getCloudfrontDistribution
  | getCloudfrontDistributionTags
  deriving DecidableEq, Repr

/-- The transform functions chained after `transform.FromField` in the source. -/
inductive TransformFunc where
  | cloudfrontDistributionTagListToTurbotTags
  | arnToAkas
  deriving DecidableEq, Repr

/-- A column transform `transform.FromField(Field)`, optionally followed by
`.Transform(Func)`. -/
structure ColumnTransform where
  Field : String
  Func : Option TransformFunc := none
  deriving DecidableEq, Repr

/-- A `plugin.Column` literal (its `Description` is left out). -/
structure Column where
  Name : String
  ColType : ColumnType
  Hydrate : Option HydrateFunc := none
  Transform : Option ColumnTransform := none
  deriving DecidableEq, Repr

/-- A `plugin.GetConfig` literal. -/
structure GetConfig where
  KeyColumns : String
  ShouldIgnoreError : GoError → Bool
  Hydrate : HydrateFunc

/-- A `plugin.ListConfig` literal. -/
structure ListConfig where
  Hydrate : HydrateFunc

/-- A `plugin.Table` literal. -/
structure Table where
  Name : String
  Columns : List Column
  Get : GetConfig
  List : ListConfig

/-- Modelled from the spec: the helper `isNotFoundError` is not in the source.
The predicate it builds holds of the provider errors whose code is one of the
given not-found codes, and of no other error. -/
def isNotFoundError (notFoundErrors : List String) (err : GoError) : Bool :=
  match err with
  | .awsErr code _ => notFoundErrors.contains code
  | .other _ => false

/-- The column literal that `tableAwsCloudfrontDistribution` passes to
`awsRegionalColumns`. -/
def distributionColumns : List Column :=
  [ { Name := "id", ColType := .STRING },
    { Name := "enabled", ColType := .BOOL },
    { Name := "e_tag", ColType := .STRING,
      Hydrate := some .getCloudfrontDistribution,
      Transform := some { Field := "Etag" } },
    { Name := "status", ColType := .STRING },
    { Name := "last_modified_time", ColType := .TIMESTAMP },
    { Name := "domain_name", ColType := .STRING },
    { Name := "tags_src", ColType := .JSON,
      Hydrate := some .getCloudfrontDistributionTags,
      Transform := some { Field := "Tags.Items" } },
    { Name := "comment", ColType := .STRING },
    { Name := "http_version", ColType := .STRING },
    { Name := "is_ipv6_enabled", ColType := .BOOL,
      Transform := some { Field := "IsIPV6Enabled" } },
    { Name := "alias_icp_recordals", ColType := .JSON,
      Transform := some { Field := "AliasICPRecordals" } },
    { Name := "custom_error_responses", ColType := .JSON },
    { Name := "default_cache_behavior", ColType := .JSON },
    { Name := "origin_groups", ColType := .JSON },
    { Name := "restrictions", ColType := .JSON },
    { Name := "viewer_certificate", ColType := .JSON },
    { Name := "active_trusted_key_groups", ColType := .JSON,
      Hydrate := some .getCloudfrontDistribution },
    { Name := "active_trusted_signers", ColType := .JSON,
      Hydrate := some .getCloudfrontDistribution },
    { Name := "price_class", ColType := .STRING },
    { Name := "web_acl_id", ColType := .STRING,
      Transform := some { Field := "WebACLId" } },
    { Name := "default_root_object", ColType := .STRING,
      Hydrate := some .getCloudfrontDistribution,
      Transform := some { Field := "DistributionConfig.DefaultRootObject" } },
    { Name := "aliases", ColType := .JSON },
    { Name := "cache_behaviors", ColType := .JSON },
    { Name := "origins", ColType := .JSON },
    { Name := "in_progress_invalidation_batches", ColType := .INT,
      Hydrate := some .getCloudfrontDistribution,
      Transform := some { Field := "InProgressInvalidationBatches" } },
    { Name := "tags", ColType := .JSON,
      Hydrate := some .getCloudfrontDistributionTags,
      Transform := some { Field := "Tags.Items",
                          Func := some .cloudfrontDistributionTagListToTurbotTags } },
    { Name := "akas", ColType := .JSON,
      Transform := some { Field := "ARN", Func := some .arnToAkas } } ]

/-- Table definition `tableAwsCloudfrontDistribution`. The helper
`awsRegionalColumns`, which wraps the column literal, is not in the source and
is a parameter. -/
def tableAwsCloudfrontDistribution (awsRegionalColumns : List Column → List Column) : Table :=
  { Name := "aws_cloudfront_distribution"
    Get :=
      { KeyColumns := "id"
        ShouldIgnoreError := isNotFoundError ["NoSuchDistribution"]
        Hydrate := .getCloudfrontDistribution }
    List := { Hydrate := .listAwsCloudfrontDistribution }
    Columns := awsRegionalColumns distributionColumns }

/-! ## Attribute resolver -/

/-- The value of type `interface{}` that a hydrate function of this table
returns, or a row item. -/
inductive HydrateResult where
  | info (r : distributionInfo)
  | tags (op : ListTagsForResourceOutput)
  deriving DecidableEq, Repr

/-- Invocation of a hydrate function by its identity. The tag hydrate asserts
`h.Item.(distributionInfo)`, which panics on a nil item; the list hydrate
returns `(nil, err)`. -/
def callHydrate (f : HydrateFunc) (session : Except GoError CloudFront)
    (item : Option distributionInfo) (idQual : String) : Go HydrateResult :=
  match f with
  | .getCloudfrontDistribution =>
    match getCloudfrontDistribution session item idQual with
    | .ok (r, err) => .ok (r.map HydrateResult.info, err)
    | .error p => .error p
  | .getCloudfrontDistributionTags =>
    match item with
    | none => .error .interfaceConversion
    | some data =>
      match getCloudfrontDistributionTags session data with
      | .ok (op, err) => .ok (op.map HydrateResult.tags, err)
      | .error p => .error p
  | .listAwsCloudfrontDistribution =>
    match (listAwsCloudfrontDistribution session).2 with
    | .ok (_, err) => .ok (none, err)
    | .error p => .error p

/-- Modelled from the spec: the per-item context of the Attribute Resolver (the
resolver itself is not in the source). It holds the item and the memoized
results of the upstream calls issued for it so far, in call order. -/
structure ItemContext where
  item : distributionInfo
  calls : List (HydrateFunc × Go HydrateResult) := []

/-- Modelled from the spec: memoized fan-in. Resolving a column that declares an
upstream call issues that call on first access and caches the result for the
remainder of the processing of the item; a column that declares none, or whose
call is cached, issues nothing. -/
def hydrateColumn (session : Except GoError CloudFront) (ctx : ItemContext) (c : Column) :
    ItemContext :=
  match c.Hydrate with
  | none => ctx
  | some f =>
    match ctx.calls.lookup f with
    | some _ => ctx
    | none => { ctx with calls := ctx.calls ++ [(f, callHydrate f session (some ctx.item) "")] }

/-- Modelled from the spec: the columns of `cols` that a request names. -/
def requestedColumns (cols : List Column) (names : List String) : List Column :=
  cols.filter (fun c => names.contains c.Name)

/-- Modelled from the spec: resolution of one item for the requested columns. -/
def resolveItem (session : Except GoError CloudFront) (ctx : ItemContext)
    (requested : List Column) : ItemContext :=
  requested.foldl (hydrateColumn session) ctx

/-- Number of Detail calls (`getCloudfrontDistribution`) issued for an item. -/
def detailCalls (ctx : ItemContext) : Nat :=
  (ctx.calls.map Prod.fst).count .getCloudfrontDistribution

/-- Modelled from the spec: the data a column is served from: the item itself
when the column declares no upstream call, else the memoized result of its
call. -/
def columnSource (ctx : ItemContext) (c : Column) : Option (Go HydrateResult) :=
  match c.Hydrate with
  | none => some (.ok (some (.info ctx.item), none))
  | some f => ctx.calls.lookup f

/-- Modelled from the spec: point lookup. The Detail fetch is performed up front
with the identifier of the key column; an error for which the predicate of the
get configuration holds yields zero records and no error, any other error is
propagated, and the record of a successful fetch becomes the item, with the
fetch memoized. -/
def pointLookup (get : GetConfig) (session : Except GoError CloudFront) (idQual : String) :
    Except Panic (List ItemContext × Option GoError) :=
  match callHydrate get.Hydrate session none idQual with
  | .error p => .error p
  | .ok (_, some err) =>
    if get.ShouldIgnoreError err then .ok ([], none) else .ok ([], some err)
  | .ok (some (.info r), none) =>
    .ok ([{ item := r, calls := [(get.Hydrate, .ok (some (.info r), none))] }], none)
  | .ok (_, none) => .ok ([], none)

/-! ## Column values -/

/-- A column value read from a field: Go nil is `null`. -/
inductive Value where
  | null
  | string (s : String)
  | bool (b : Bool)
  | int (n : Int)
  | json (b : Blob)
  | tagList (l : List (Option Tag))
  deriving DecidableEq, Repr

/-- Value of a `*string` field. -/
def Value.ofString : Option String → Value
  | some s => .string s
  | none => .null

/-- Value of a `*bool` field. -/
def Value.ofBool : Option Bool → Value
  | some b => .bool b
  | none => .null

/-- Value of a `*int64` or `*time.Time` field. -/
def Value.ofInt : Option Int → Value
  | some n => .int n
  | none => .null

/-- Value of a nested structure or slice field. -/
def Value.ofBlob : Option Blob → Value
  | some b => .json b
  | none => .null

/-- The field of a `distributionInfo` (promoted fields of the embedded summary
included) at a `FromField` path. -/
def distributionInfo.field (r : distributionInfo) (path : String) : Value :=
  match path with
  | "ARN" => .ofString r.ARN
  | "AliasICPRecordals" => .ofBlob r.AliasICPRecordals
  | "Aliases" => .ofBlob r.Aliases
  | "CacheBehaviors" => .ofBlob r.CacheBehaviors
  | "Comment" => .ofString r.Comment
  | "CustomErrorResponses" => .ofBlob r.CustomErrorResponses
  | "DefaultCacheBehavior" => .ofBlob r.DefaultCacheBehavior
  | "DomainName" => .ofString r.DomainName
  | "Enabled" => .ofBool r.Enabled
  | "HttpVersion" => .ofString r.HttpVersion
  | "Id" => .ofString r.Id
  | "IsIPV6Enabled" => .ofBool r.IsIPV6Enabled
  | "LastModifiedTime" => .ofInt r.LastModifiedTime
  | "OriginGroups" => .ofBlob r.OriginGroups
  | "Origins" => .ofBlob r.Origins
  | "PriceClass" => .ofString r.PriceClass
  | "Restrictions" => .ofBlob r.Restrictions
  | "Status" => .ofString r.Status
  | "ViewerCertificate" => .ofBlob r.ViewerCertificate
  | "WebACLId" => .ofString r.WebACLId
  | "ActiveTrustedKeyGroups" => .ofBlob r.ActiveTrustedKeyGroups
  | "ActiveTrustedSigners" => .ofBlob r.ActiveTrustedSigners
  | "InProgressInvalidationBatches" => .ofInt r.InProgressInvalidationBatches
  | "Etag" => .ofString r.Etag
  | "DistributionConfig.DefaultRootObject" =>
    .ofString (r.DistributionConfig.bind (fun c => c.DefaultRootObject))
  | _ => .null

/-- The field of a hydrate result at a `FromField` path. -/
def HydrateResult.field (src : HydrateResult) (path : String) : Value :=
  match src with
  | .info r => r.field path
  | .tags op =>
    if path = "Tags.Items" then
      match op.Tags.bind (fun t => t.Items) with
      | some l => .tagList l
      | none => .null
    else .null

/-- Camel-casing of a snake-case name: the first letter and every letter after
an underscore are upper-cased and the underscores dropped. -/
def camelChars : Bool → List Char → List Char
  | _, [] => []
  | up, c :: cs =>
    if c = '_' then camelChars true cs
    else (if up then c.toUpper else c) :: camelChars false cs

/-- Modelled from the spec: the field a column is read from. A column with a
`FromField` transform reads that field; a column without a transform is served
directly from the field named like the column, in camel case. -/
def columnField (c : Column) : String :=
  match c.Transform with
  | some t => t.Field
  | none => String.mk (camelChars true c.Name.data)

/-- Modelled from the spec: the value `FromField` reads for a column from the
data the column is served from; a failed upstream call yields its error. A
chained `.Transform` function (columns `tags` and `akas`) is applied to this
value afterwards and is not part of this definition. -/
def columnFieldValue (ctx : ItemContext) (c : Column) : Option (Go Value) :=
  match columnSource ctx c with
  | some (.ok (some src, none)) => some (.ok (some (src.field (columnField c)), none))
  | some (.ok (_, err)) => some (.ok (none, err))
  | some (.error p) => some (.error p)
  | none => none

/-- Modelled from the spec: one listing row: the item is resolved for the
requested columns, and each requested column is read. -/
def resolveRow (session : Except GoError CloudFront) (requested : List Column)
    (ctx : ItemContext) : ItemContext × List (String × Option (Go Value)) :=
  (resolveItem session ctx requested,
    requested.map (fun c => (c.Name, columnFieldValue (resolveItem session ctx requested) c)))

/-- Modelled from the spec: a listing query. Every streamed item is resolved
independently, in stream order, starting from an empty memo. -/
def listRows (session : Except GoError CloudFront) (cols : List Column) (names : List String) :
    List (ItemContext × List (String × Option (Go Value))) :=
  (listAwsCloudfrontDistribution session).1.map
    (fun r => resolveRow session (requestedColumns cols names) { item := r })

/-! ## Auxiliary notions used to state the properties -/

/-- The record the list callback builds from one listed summary:
`distributionInfo{DistributionSummary: *parameter}`. -/
def distributionInfo.ofSummary (parameter : DistributionSummary) : distributionInfo :=
  { toDistributionSummary := parameter }

/-- A listing page with a non-nil `DistributionList` and non-nil item pointers. -/
def pageWellFormed (page : ListDistributionsOutput) : Bool :=
  match page.DistributionList with
  | some dl => dl.Items.all Option.isSome
  | none => false

/-- The summaries a listing page points to, in order. -/
def pageItems (page : ListDistributionsOutput) : List DistributionSummary :=
  match page.DistributionList with
  | some dl => dl.Items.filterMap id
  | none => []

/-- The listing page the SDK builds for a list of summaries:
`&ListDistributionsOutput{DistributionList: &DistributionList{Items: items}}`,
each item a pointer to its summary. -/
def pageOf (items : List DistributionSummary) : ListDistributionsOutput :=
  { DistributionList := some { Items := items.map some } }

/-- A Detail response carrying a viewer certificate, custom error responses,
origin groups and restrictions in its configuration. -/
def sampleDetail : GetDistributionOutput :=
  { Distribution := some
      { ARN := some "arn:aws:cloudfront::123:distribution/A"
        Id := some "A"
        Status := some "Deployed"
        DistributionConfig := some
          { Enabled := some true
            CustomErrorResponses := some "errors"
            OriginGroups := some "groups"
            Restrictions := some "geo"
            ViewerCertificate := some "cert" } }
    ETag := some "E1" }

/-- A client that lists two one-item pages and knows the distribution `A`. -/
def sampleService : CloudFront :=
  { pages :=
      [(pageOf [{ Id := some "A", Enabled := some true }], false),
        (pageOf [{ Id := some "B", Enabled := some false }], true)]
    pagesErr := none
    GetDistribution := fun id =>
      if id = "A" then .ok sampleDetail else .error (.awsErr "NoSuchDistribution" "not found")
    ListTagsForResource := fun _ => .ok { Tags := some { Items := some [] } } }

/-! ## Theorems -/

theorem assignTag_complete (m : TagMap) (k v : String) :
    assignTag m (some ⟨some k, some v⟩) = .ok (m.insert k v) := rfl

theorem complete_iff (i : Option Tag) :
    Tag.complete i = true ↔ ∃ k v, i = some ⟨some k, some v⟩ := by
  constructor
  · intro h
    match i, h with
    | some ⟨some k, some v⟩, _ => exact ⟨k, v, rfl⟩
  · rintro ⟨k, v, rfl⟩
    rfl

theorem lastEntry_cons (k : String) (i : Option Tag) (tags : List (Option Tag)) :
    lastEntry k (i :: tags) =
      (lastEntry k tags).or (if Tag.key? i = some k then some i else none) := by
  unfold lastEntry
  rw [List.reverse_cons, List.find?_append]
  by_cases hk : Tag.key? i = some k <;> simp [List.find?, hk]

theorem lastEntry_mem {k : String} {tags : List (Option Tag)} {j : Option Tag}
    (h : lastEntry k tags = some j) : j ∈ tags ∧ Tag.key? j = some k := by
  unfold lastEntry at h
  exact ⟨List.mem_reverse.1 (List.mem_of_find?_eq_some h), by simpa using List.find?_some h⟩

theorem lastEntry_eq_none {k : String} {tags : List (Option Tag)} :
    lastEntry k tags = none ↔ some k ∉ tags.map Tag.key? := by
  unfold lastEntry
  rw [List.find?_eq_none]
  constructor
  · intro hn hmem
    obtain ⟨i, hi, hik⟩ := List.mem_map.1 hmem
    exact hn i (List.mem_reverse.2 hi) (by simpa using hik)
  · intro hn x hx hp
    exact hn (List.mem_map.2 ⟨x, List.mem_reverse.1 hx, by simpa using hp⟩)

theorem foldlM_assignTag (tags : List (Option Tag))
    (h : ∀ i ∈ tags, Tag.complete i = true) (m : TagMap) :
    ∃ m', tags.foldlM assignTag m = .ok m' ∧
      ∀ k, m'.lookup k = (lastValue k tags).or (m.lookup k) := by
  induction tags generalizing m with
  | nil => exact ⟨m, rfl, fun k => by simp [lastValue, lastEntry]⟩
  | cons i rest ih =>
    obtain ⟨k0, v0, rfl⟩ := (complete_iff i).1 (h i (List.mem_cons_self _ _))
    obtain ⟨m', hm', hl⟩ := ih (fun j hj => h j (List.mem_cons_of_mem _ hj)) (m.insert k0 v0)
    refine ⟨m', ?_, fun k => ?_⟩
    · rw [List.foldlM_cons, assignTag_complete]
      exact hm'
    · rw [hl k]
      unfold lastValue
      rw [lastEntry_cons]
      cases hr : lastEntry k rest with
      | some j =>
        obtain ⟨k2, v2, rfl⟩ := (complete_iff j).1 (h j (List.mem_cons_of_mem _ (lastEntry_mem hr).1))
        simp [Tag.value?]
      | none =>
        by_cases hk : k0 = k
        · subst hk
          simp [Tag.key?, Tag.value?, Finmap.lookup_insert]
        · have hk' : k ≠ k0 := fun e => hk e.symm
          simp [Tag.key?, hk, Finmap.lookup_insert_of_ne _ hk']

theorem lastValue_eq_none (k : String) (tags : List (Option Tag))
    (h : ∀ i ∈ tags, Tag.complete i = true) :
    lastValue k tags = none ↔ some k ∉ tags.map Tag.key? := by
  rw [← lastEntry_eq_none]
  unfold lastValue
  cases hr : lastEntry k tags with
  | none => simp
  | some j =>
    obtain ⟨k2, v2, rfl⟩ := (complete_iff j).1 (h j (lastEntry_mem hr).1)
    simp [Tag.value?]

theorem normalizer_complete (tags : List (Option Tag))
    (h : ∀ i ∈ tags, Tag.complete i = true) :
    ∃ m, cloudfrontDistributionTagListToTurbotTags (some tags) = .ok (some m, none) ∧
      ∀ k, m.lookup k = lastValue k tags := by
  obtain ⟨m, hm, hl⟩ := foldlM_assignTag tags h ∅
  refine ⟨m, ?_, fun k => ?_⟩
  · simp only [cloudfrontDistributionTagListToTurbotTags, hm]
  · rw [hl k, Finmap.lookup_empty]
    cases lastValue k tags <;> rfl

theorem normalizer_err_nil (tagList : Option (List (Option Tag))) (v : Option TagMap)
    (e : Option GoError) (h : cloudfrontDistributionTagListToTurbotTags tagList = .ok (v, e)) :
    e = none := by
  unfold cloudfrontDistributionTagListToTurbotTags at h
  split at h
  · split at h
    · cases h; rfl
    · cases h
  · cases h; rfl

/-- C2: on tag lists whose entries all have a key and a value, the normalizer
returns null exactly for the nil list and the empty mapping exactly for the
non-nil empty list (and never an error). -/
theorem normalizer_null_iff_empty_iff (tagList : Option (List (Option Tag)))
    (h : tagListComplete tagList = true) :
    (cloudfrontDistributionTagListToTurbotTags tagList = .ok (none, none) ↔ tagList = none) ∧
    (cloudfrontDistributionTagListToTurbotTags tagList = .ok (some ∅, none) ↔
      tagList = some []) ∧
    (∀ v e, cloudfrontDistributionTagListToTurbotTags tagList = .ok (v, e) → e = none) := by
  refine ⟨?_, ?_, fun v e he => normalizer_err_nil tagList v e he⟩
  · cases tagList with
    | none => exact ⟨fun _ => rfl, fun _ => rfl⟩
    | some tags =>
      have hc : ∀ i ∈ tags, Tag.complete i = true := by simpa [tagListComplete] using h
      obtain ⟨m, hm, _⟩ := normalizer_complete tags hc
      rw [hm]
      simp
  · cases tagList with
    | none => simp [cloudfrontDistributionTagListToTurbotTags]
    | some tags =>
      have hc : ∀ i ∈ tags, Tag.complete i = true := by simpa [tagListComplete] using h
      obtain ⟨m, hm, hl⟩ := normalizer_complete tags hc
      rw [hm]
      constructor
      · intro he
        have hme : m = ∅ := by simpa using he
        cases tags with
        | nil => rfl
        | cons i rest =>
          exfalso
          obtain ⟨k, v, rfl⟩ := (complete_iff i).1 (hc i (List.mem_cons_self _ _))
          have h1 := hl k
          rw [hme, Finmap.lookup_empty] at h1
          exact (lastValue_eq_none k _ hc).1 h1.symm (by simp [Tag.key?])
      · intro he
        have : tags = [] := by simpa using he
        subst this
        have : cloudfrontDistributionTagListToTurbotTags (some []) = .ok (some ∅, none) := rfl
        rw [← hm, this]

theorem normalizer_null_iff_empty_iff_witness :
    tagListComplete (some [some ⟨some "env", some "prod"⟩]) = true ∧
    ((cloudfrontDistributionTagListToTurbotTags (some [some ⟨some "env", some "prod"⟩])
        = .ok (none, none) ↔ (some [some ⟨some "env", some "prod"⟩] : Option (List (Option Tag))) = none) ∧
    (cloudfrontDistributionTagListToTurbotTags (some [some ⟨some "env", some "prod"⟩])
        = .ok (some ∅, none) ↔
      (some [some ⟨some "env", some "prod"⟩] : Option (List (Option Tag))) = some []) ∧
    (∀ v e, cloudfrontDistributionTagListToTurbotTags (some [some ⟨some "env", some "prod"⟩])
        = .ok (v, e) → e = none)) :=
  ⟨by decide, normalizer_null_iff_empty_iff _ (by decide)⟩

theorem assignTag_incomplete (m : TagMap) (i : Option Tag) (h : Tag.complete i = false) :
    assignTag m i = .error Panic.nilDereference := by
  match i, h with
  | none, _ => rfl
  | some ⟨none, _⟩, _ => rfl
  | some ⟨some _, none⟩, _ => rfl

theorem foldlM_assignTag_incomplete (tags : List (Option Tag))
    (h : tags.all Tag.complete = false) (m : TagMap) :
    tags.foldlM assignTag m = .error Panic.nilDereference := by
  induction tags generalizing m with
  | nil => simp at h
  | cons i rest ih =>
    rw [List.foldlM_cons]
    cases hi : Tag.complete i with
    | false =>
      rw [assignTag_incomplete m i hi]
      rfl
    | true =>
      obtain ⟨k, v, rfl⟩ := (complete_iff i).1 hi
      have hr : rest.all Tag.complete = false := by
        simp only [List.all_cons, hi, Bool.true_and] at h
        exact h
      rw [assignTag_complete]
      exact ih hr (m.insert k v)

theorem normalizer_incomplete_panics (tags : List (Option Tag))
    (h : tags.all Tag.complete = false) :
    cloudfrontDistributionTagListToTurbotTags (some tags) = .error Panic.nilDereference := by
  simp only [cloudfrontDistributionTagListToTurbotTags, foldlM_assignTag_incomplete tags h ∅]

/-- C4: last key wins. For every non-nil tag list, the mapping the normalizer
returns sends every key occurring in the list to the value of the last entry
with that key, and its key set is exactly the set of keys occurring in the
list; a mapping is returned for every list whose entries all have a key and a
value. -/
theorem normalizer_last_key_wins (tags : List (Option Tag)) :
    (tags.all Tag.complete = true →
      ∃ m, cloudfrontDistributionTagListToTurbotTags (some tags) = .ok (some m, none)) ∧
    ∀ m e, cloudfrontDistributionTagListToTurbotTags (some tags) = .ok (some m, e) →
      (∀ k, some k ∈ tags.map Tag.key? →
        ∃ v, lastValue k tags = some v ∧ m.lookup k = some v) ∧
      m.keys = (tags.filterMap Tag.key?).toFinset := by
  constructor
  · intro h
    have hc : ∀ i ∈ tags, Tag.complete i = true := by simpa using h
    obtain ⟨m, hm, _⟩ := normalizer_complete tags hc
    exact ⟨m, hm⟩
  intro m0 e hret
  have h : tags.all Tag.complete = true := by
    cases hall : tags.all Tag.complete with
    | true => rfl
    | false =>
      rw [normalizer_incomplete_panics tags hall] at hret
      cases hret
  have hc : ∀ i ∈ tags, Tag.complete i = true := by simpa using h
  obtain ⟨m, hm, hl⟩ := normalizer_complete tags hc
  have hmm : m0 = m := by
    rw [hm] at hret
    cases hret
    rfl
  subst hmm
  refine ⟨fun k hk => ?_, ?_⟩
  · cases hv : lastValue k tags with
    | none => exact absurd hk ((lastValue_eq_none k tags hc).1 hv)
    | some v => exact ⟨v, rfl, by rw [hl k, hv]⟩
  · ext k
    rw [Finmap.mem_keys, ← Finmap.lookup_isSome, hl k, List.mem_toFinset, List.mem_filterMap]
    have hiff := lastValue_eq_none k tags hc
    constructor
    · intro hs
      have hne : lastValue k tags ≠ none := by
        intro e
        rw [e] at hs
        exact absurd hs (by simp)
      have hmem : some k ∈ tags.map Tag.key? := by
        by_contra hcon
        exact hne (hiff.2 hcon)
      obtain ⟨i, hi, hik⟩ := List.mem_map.1 hmem
      exact ⟨i, hi, hik⟩
    · rintro ⟨i, hi, hik⟩
      have hmem : some k ∈ tags.map Tag.key? := List.mem_map.2 ⟨i, hi, hik⟩
      cases hv : lastValue k tags with
      | none => exact absurd hmem (hiff.1 hv)
      | some v => rfl

theorem normalizer_last_key_wins_witness :
    ∃ m, cloudfrontDistributionTagListToTurbotTags
        (some [some ⟨some "env", some "dev"⟩, some ⟨some "team", some "web"⟩,
          some ⟨some "env", some "prod"⟩]) = .ok (some m, none) ∧
      m.lookup "env" = some "prod" ∧ m.lookup "team" = some "web" ∧
      m.keys = {"env", "team"} := by
  obtain ⟨m, hm⟩ := (normalizer_last_key_wins
    [some ⟨some "env", some "dev"⟩, some ⟨some "team", some "web"⟩,
      some ⟨some "env", some "prod"⟩]).1 (by decide)
  obtain ⟨hlast, hkeys⟩ := (normalizer_last_key_wins
    [some ⟨some "env", some "dev"⟩, some ⟨some "team", some "web"⟩,
      some ⟨some "env", some "prod"⟩]).2 m none hm
  refine ⟨m, hm, ?_, ?_, ?_⟩
  · obtain ⟨v, hv, hmv⟩ := hlast "env" (by decide)
    have : v = "prod" := by
      have h2 : lastValue "env" [some ⟨some "env", some "dev"⟩, some ⟨some "team", some "web"⟩,
        some ⟨some "env", some "prod"⟩] = some "prod" := by decide
      rw [h2] at hv
      exact (Option.some.inj hv).symm
    rw [hmv, this]
  · obtain ⟨v, hv, hmv⟩ := hlast "team" (by decide)
    have : v = "web" := by
      have h2 : lastValue "team" [some ⟨some "env", some "dev"⟩, some ⟨some "team", some "web"⟩,
        some ⟨some "env", some "prod"⟩] = some "web" := by decide
      rw [h2] at hv
      exact (Option.some.inj hv).symm
    rw [hmv, this]
  · rw [hkeys]
    decide

theorem lastValue_ofEntry_iff (l : List ((_ : String) × String)) (hnd : l.NodupKeys)
    (k v : String) :
    lastValue k (l.map Tag.ofEntry) = some v ↔ (⟨k, v⟩ : (_ : String) × String) ∈ l := by
  have hc : ∀ i ∈ l.map Tag.ofEntry, Tag.complete i = true := by
    intro i hi
    obtain ⟨e, _, rfl⟩ := List.mem_map.1 hi
    rfl
  have fwd : ∀ w, lastValue k (l.map Tag.ofEntry) = some w →
      (⟨k, w⟩ : (_ : String) × String) ∈ l := by
    intro w hw
    unfold lastValue at hw
    cases hr : lastEntry k (l.map Tag.ofEntry) with
    | none => rw [hr] at hw; cases hw
    | some j =>
      rw [hr] at hw
      obtain ⟨hj, hjk⟩ := lastEntry_mem hr
      obtain ⟨⟨k1, v1⟩, he, rfl⟩ := List.mem_map.1 hj
      simp only [Tag.ofEntry, Tag.key?, Option.some.injEq] at hjk
      simp only [Tag.ofEntry, Option.some_bind, Tag.value?, Option.some.injEq] at hw
      subst hjk
      subst hw
      exact he
  refine ⟨fwd v, fun hmem => ?_⟩
  cases hv : lastValue k (l.map Tag.ofEntry) with
  | none =>
    exfalso
    refine (lastValue_eq_none k _ hc).1 hv (List.mem_map.2 ⟨Tag.ofEntry ⟨k, v⟩, ?_, rfl⟩)
    exact List.mem_map.2 ⟨_, hmem, rfl⟩
  | some w =>
    have hw := fwd w hv
    have := hnd.eq_of_fst_eq hw hmem rfl
    cases this
    rfl

/-- C3: round trip. For every tag mapping `m`, normalizing any listing of the
entries of `m` as a tag list of (key, value) pairs, in any order, returns
exactly `m`. -/
theorem normalizer_round_trip (m : TagMap) (l : List ((_ : String) × String))
    (h : (l : Multiset ((_ : String) × String)) = m.entries) :
    cloudfrontDistributionTagListToTurbotTags (some (l.map Tag.ofEntry)) =
      .ok (some m, none) := by
  have hnd : l.NodupKeys := by
    have := m.nodupKeys
    rw [← h] at this
    exact Multiset.coe_nodupKeys.1 this
  have hc : ∀ i ∈ l.map Tag.ofEntry, Tag.complete i = true := by
    intro i hi
    obtain ⟨e, _, rfl⟩ := List.mem_map.1 hi
    rfl
  obtain ⟨m', hm', hl⟩ := normalizer_complete _ hc
  have : m' = m := by
    apply Finmap.ext_lookup
    intro k
    rw [hl k]
    apply Option.ext
    intro v
    rw [Option.mem_def, Option.mem_def, lastValue_ofEntry_iff l hnd, Finmap.lookup_eq_some_iff,
      ← h]
    exact Iff.rfl
  rw [hm', this]

theorem normalizer_round_trip_witness :
    ((([⟨"team", "web"⟩, ⟨"env", "prod"⟩] : List ((_ : String) × String)) :
        Multiset ((_ : String) × String)) =
      (Finmap.insert "env" "prod" (Finmap.singleton "team" "web") : TagMap).entries) ∧
    cloudfrontDistributionTagListToTurbotTags
        (some (([⟨"team", "web"⟩, ⟨"env", "prod"⟩] : List ((_ : String) × String)).map
          Tag.ofEntry)) =
      .ok (some (Finmap.insert "env" "prod" (Finmap.singleton "team" "web")), none) :=
  ⟨by decide, normalizer_round_trip _ _ (by decide)⟩

/-- C5 (evaluation at the failing input): on the tag list holding the single
entry with key `env` and no value the normalizer does not return an error
value: the dereference `*i.Value` panics. -/
theorem normalizer_missing_value_panics :
    cloudfrontDistributionTagListToTurbotTags (some [some ⟨some "env", none⟩]) =
      .error Panic.nilDereference := by
  rfl
theorem streamItems_wellFormed (items : List (Option DistributionSummary))
    (h : items.all Option.isSome = true) :
    streamItems items = ((items.filterMap id).map distributionInfo.ofSummary, .ok ()) := by
  induction items with
  | nil => rfl
  | cons i rest ih =>
    cases i with
    | none => simp at h
    | some s =>
      have hr : rest.all Option.isSome = true := by
        simp only [List.all_cons, Bool.and_eq_true] at h
        exact h.2
      simp only [streamItems, ih hr]
      rfl

theorem pageCallback_wellFormed (page : ListDistributionsOutput) (isLast : Bool)
    (h : pageWellFormed page = true) :
    pageCallback page isLast = ((pageItems page).map distributionInfo.ofSummary, .ok (!isLast)) := by
  unfold pageWellFormed at h
  unfold pageCallback pageItems
  cases hd : page.DistributionList with
  | none => rw [hd] at h; cases h
  | some dl =>
    rw [hd] at h
    simp only [streamItems_wellFormed dl.Items h]

theorem pages_until_last (init : List ListDistributionsOutput) (last : ListDistributionsOutput)
    (err : Option GoError) (hwf : (init ++ [last]).all pageWellFormed = true) :
    ListDistributionsPages pageCallback (init.map (fun p => (p, false)) ++ [(last, true)]) err =
      ((((init ++ [last]).map pageItems).flatten).map distributionInfo.ofSummary, .ok none) := by
  induction init with
  | nil =>
    have hl : pageWellFormed last = true := by simpa using hwf
    simp [ListDistributionsPages, pageCallback_wellFormed last true hl]
  | cons p rest ih =>
    have hp : pageWellFormed p = true := by
      simp only [List.cons_append, List.all_cons, Bool.and_eq_true] at hwf
      exact hwf.1
    have hr : (rest ++ [last]).all pageWellFormed = true := by
      simp only [List.cons_append, List.all_cons, Bool.and_eq_true] at hwf
      exact hwf.2
    simp [ListDistributionsPages, pageCallback_wellFormed p false hp, ih hr]

theorem streamItems_mem (items : List (Option DistributionSummary)) (r : distributionInfo)
    (h : r ∈ (streamItems items).1) :
    ∃ s, some s ∈ items ∧ r = distributionInfo.ofSummary s := by
  induction items with
  | nil => simp [streamItems] at h
  | cons i rest ih =>
    cases i with
    | none => simp [streamItems] at h
    | some s =>
      simp only [streamItems, List.mem_cons] at h
      rcases h with h | h
      · exact ⟨s, List.mem_cons_self _ _, h⟩
      · obtain ⟨s', hs', hr⟩ := ih h
        exact ⟨s', List.mem_cons_of_mem _ hs', hr⟩

theorem pageCallback_mem (page : ListDistributionsOutput) (isLast : Bool) (r : distributionInfo)
    (h : r ∈ (pageCallback page isLast).1) :
    ∃ dl s, page.DistributionList = some dl ∧ some s ∈ dl.Items ∧
      r = distributionInfo.ofSummary s := by
  unfold pageCallback at h
  cases hd : page.DistributionList with
  | none => rw [hd] at h; simp at h
  | some dl =>
    rw [hd] at h
    have hsub : (match streamItems dl.Items with
        | (out, .ok _) => (out, Except.ok (!isLast))
        | (out, .error p) => (out, Except.error p) :
          List distributionInfo × Except Panic Bool).1 = (streamItems dl.Items).1 := by
      rcases hs : streamItems dl.Items with ⟨out, _ | _⟩ <;> rfl
    simp only at h
    rw [hsub] at h
    obtain ⟨s, hs, hr⟩ := streamItems_mem dl.Items r h
    exact ⟨dl, s, rfl, hs, hr⟩

theorem pages_mem (pages : List (ListDistributionsOutput × Bool)) (err : Option GoError)
    (r : distributionInfo) (h : r ∈ (ListDistributionsPages pageCallback pages err).1) :
    ∃ p ∈ pages, ∃ dl s, p.1.DistributionList = some dl ∧ some s ∈ dl.Items ∧
      r = distributionInfo.ofSummary s := by
  induction pages with
  | nil => simp [ListDistributionsPages] at h
  | cons p rest ih =>
    obtain ⟨page, isLast⟩ := p
    unfold ListDistributionsPages at h
    rcases hc : pageCallback page isLast with ⟨out, (e | b)⟩
    · rw [hc] at h
      simp only at h
      have : r ∈ (pageCallback page isLast).1 := by rw [hc]; exact h
      exact ⟨(page, isLast), List.mem_cons_self _ _, pageCallback_mem page isLast r this⟩
    · rw [hc] at h
      cases b with
      | false =>
        simp only at h
        have : r ∈ (pageCallback page isLast).1 := by rw [hc]; exact h
        exact ⟨(page, isLast), List.mem_cons_self _ _, pageCallback_mem page isLast r this⟩
      | true =>
        simp only [List.mem_append] at h
        rcases h with h | h
        · have : r ∈ (pageCallback page isLast).1 := by rw [hc]; exact h
          exact ⟨(page, isLast), List.mem_cons_self _ _, pageCallback_mem page isLast r this⟩
        · obtain ⟨p, hp, hrest⟩ := ih h
          exact ⟨p, List.mem_cons_of_mem _ hp, hrest⟩

theorem list_streamed_mem (svc : CloudFront) (r : distributionInfo)
    (h : r ∈ (listAwsCloudfrontDistribution (.ok svc)).1) :
    ∃ p ∈ svc.pages, ∃ dl s, p.1.DistributionList = some dl ∧ some s ∈ dl.Items ∧
      r = distributionInfo.ofSummary s := by
  unfold listAwsCloudfrontDistribution at h
  simp only at h
  rcases hc : ListDistributionsPages pageCallback svc.pages svc.pagesErr with ⟨out, (e | b)⟩
  all_goals
    rw [hc] at h
    simp only at h
    have : r ∈ (ListDistributionsPages pageCallback svc.pages svc.pagesErr).1 := by rw [hc]; exact h
    exact pages_mem _ _ r this

theorem getCloudfrontDistribution_lookup (svc : CloudFront) (id : String)
    (op : GetDistributionOutput) (d : Distribution) (cfg : DistributionConfig)
    (hget : svc.GetDistribution id = .ok op) (hd : op.Distribution = some d)
    (hc : d.DistributionConfig = some cfg) :
    getCloudfrontDistribution (.ok svc) none id = .ok (some {
      toDistributionSummary := {
        ARN := d.ARN, Id := d.Id, DomainName := d.DomainName, Status := d.Status,
        LastModifiedTime := d.LastModifiedTime, AliasICPRecordals := d.AliasICPRecordals,
        Enabled := cfg.Enabled, HttpVersion := cfg.HttpVersion,
        IsIPV6Enabled := cfg.IsIPV6Enabled, PriceClass := cfg.PriceClass,
        WebACLId := cfg.WebACLId, Comment := cfg.Comment, Origins := cfg.Origins,
        Aliases := cfg.Aliases, CacheBehaviors := cfg.CacheBehaviors,
        DefaultCacheBehavior := cfg.DefaultCacheBehavior }
      DistributionConfig := some cfg
      ActiveTrustedKeyGroups := d.ActiveTrustedKeyGroups
      ActiveTrustedSigners := d.ActiveTrustedSigners
      InProgressInvalidationBatches := d.InProgressInvalidationBatches
      Etag := op.ETag }, none) := by
  simp only [getCloudfrontDistribution, hget, hd, hc]

theorem getCloudfrontDistribution_item (svc : CloudFront) (info : distributionInfo)
    (id idQual : String) (hid : info.Id = some id) :
    getCloudfrontDistribution (.ok svc) (some info) idQual =
      getCloudfrontDistribution (.ok svc) none id := by
  simp only [getCloudfrontDistribution, hid, deref]

theorem pageWellFormed_pageOf (items : List DistributionSummary) :
    pageWellFormed (pageOf items) = true := by
  simp [pageWellFormed, pageOf]

theorem pageItems_pageOf (items : List DistributionSummary) :
    pageItems (pageOf items) = items := by
  simp [pageItems, pageOf, List.filterMap_map]

theorem list_of_pages (svc : CloudFront) (init : List (List DistributionSummary))
    (last : List DistributionSummary)
    (hpages : svc.pages =
      init.map (fun items => (pageOf items, false)) ++ [(pageOf last, true)]) :
    listAwsCloudfrontDistribution (.ok svc) =
      ((init ++ [last]).flatten.map distributionInfo.ofSummary, .ok (none, none)) := by
  have hwf : (init.map pageOf ++ [pageOf last]).all pageWellFormed = true := by
    simp [pageWellFormed_pageOf]
  have hitems : ((init.map pageOf ++ [pageOf last]).map pageItems).flatten =
      (init ++ [last]).flatten := by
    simp [pageItems_pageOf, Function.comp_def]
  have hp : svc.pages =
      (init.map pageOf).map (fun p => (p, false)) ++ [(pageOf last, true)] := by
    rw [hpages, List.map_map]
    rfl
  simp only [listAwsCloudfrontDistribution, hp,
    pages_until_last (init.map pageOf) (pageOf last) svc.pagesErr hwf, hitems]

/-- C1 (evaluation at the failing input): for the Detail response `sampleDetail`,
whose configuration carries custom error responses, origin groups, restrictions
and a viewer certificate, the point lookup returns a record in which these four
Summary-shaped fields are nil, while the fields the composite literal names
(here `Id`, `Status`, `Enabled`) are copied from the response; the four columns
of these names declare no hydrate and read these fields of the record. -/
theorem getCloudfrontDistribution_leaves_four_fields_nil :
    ∃ r cfg, getCloudfrontDistribution (.ok sampleService) none "A" = .ok (some r, none) ∧
      sampleDetail.Distribution.bind (fun d => d.DistributionConfig) = some cfg ∧
      r.Id = some "A" ∧ r.Status = some "Deployed" ∧ r.Enabled = cfg.Enabled ∧
      cfg.CustomErrorResponses = some "errors" ∧ r.CustomErrorResponses = none ∧
      cfg.OriginGroups = some "groups" ∧ r.OriginGroups = none ∧
      cfg.Restrictions = some "geo" ∧ r.Restrictions = none ∧
      cfg.ViewerCertificate = some "cert" ∧ r.ViewerCertificate = none ∧
      ∀ c ∈ distributionColumns,
        c.Name ∈ ["custom_error_responses", "origin_groups", "restrictions",
          "viewer_certificate"] →
        c.Hydrate = none ∧ columnField c ∈ ["CustomErrorResponses", "OriginGroups",
          "Restrictions", "ViewerCertificate"] :=
  ⟨_, _, getCloudfrontDistribution_lookup sampleService "A" sampleDetail _ _ rfl rfl rfl,
    rfl, rfl, rfl, rfl, rfl, rfl, rfl, rfl, rfl, rfl, rfl, rfl, by decide⟩

/-- C6: the enumerator preserves the provider's order. When the pager delivers
the pages `init` (none flagged last) followed by the page `last` (flagged
last), the list hydrate returns no error and streams exactly one record per
page item, in page order and within a page in item order: the streamed records
are the page items, each wrapped in a record, and the i-th record's summary is
the i-th item. -/
theorem enumerator_preserves_order (svc : CloudFront) (init : List (List DistributionSummary))
    (last : List DistributionSummary)
    (hpages : svc.pages =
      init.map (fun items => (pageOf items, false)) ++ [(pageOf last, true)]) :
    (listAwsCloudfrontDistribution (.ok svc)).2 = .ok (none, none) ∧
    (listAwsCloudfrontDistribution (.ok svc)).1 =
      (init ++ [last]).flatten.map distributionInfo.ofSummary ∧
    (listAwsCloudfrontDistribution (.ok svc)).1.length = (init ++ [last]).flatten.length ∧
    ∀ i : Nat, ((listAwsCloudfrontDistribution (.ok svc)).1[i]?).map
        distributionInfo.toDistributionSummary = (init ++ [last]).flatten[i]? := by
  rw [list_of_pages svc init last hpages]
  refine ⟨rfl, rfl, List.length_map _ _, fun i => ?_⟩
  simp only [List.getElem?_map, Option.map_map]
  cases (init ++ [last]).flatten[i]? <;> rfl

theorem enumerator_preserves_order_witness :
    (sampleService.pages =
      [[({ Id := some "A", Enabled := some true } : DistributionSummary)]].map
          (fun items => (pageOf items, false)) ++
        [(pageOf [{ Id := some "B", Enabled := some false }], true)]) ∧
    (listAwsCloudfrontDistribution (.ok sampleService)).1 =
      [distributionInfo.ofSummary { Id := some "A", Enabled := some true },
        distributionInfo.ofSummary { Id := some "B", Enabled := some false }] :=
  ⟨rfl, (enumerator_preserves_order sampleService
    [[{ Id := some "A", Enabled := some true }]] [{ Id := some "B", Enabled := some false }]
    rfl).2.1⟩

/-- C7: ResolvedRecord invariant. Every record streamed by the listing has its
five Detail-sourced fields nil and its summary equal to a listed summary; the
record built by `getCloudfrontDistribution` from a Detail response (for a point
lookup, and likewise for a listed item with that identifier) carries the
response's configuration, trusted key groups, trusted signers, in-progress
invalidation count and entity tag. -/
theorem resolvedRecord_invariant (svc : CloudFront) (id : String) (op : GetDistributionOutput)
    (d : Distribution) (cfg : DistributionConfig)
    (hget : svc.GetDistribution id = .ok op) (hd : op.Distribution = some d)
    (hc : d.DistributionConfig = some cfg) :
    (∀ r ∈ (listAwsCloudfrontDistribution (.ok svc)).1,
      r.DistributionConfig = none ∧ r.ActiveTrustedKeyGroups = none ∧
      r.ActiveTrustedSigners = none ∧ r.InProgressInvalidationBatches = none ∧
      r.Etag = none ∧
      ∃ p ∈ svc.pages, ∃ dl, p.1.DistributionList = some dl ∧
        some r.toDistributionSummary ∈ dl.Items) ∧
    (∃ r, getCloudfrontDistribution (.ok svc) none id = .ok (some r, none) ∧
      (∀ info idQual, info.Id = some id →
        getCloudfrontDistribution (.ok svc) (some info) idQual = .ok (some r, none)) ∧
      r.DistributionConfig = d.DistributionConfig ∧
      r.ActiveTrustedKeyGroups = d.ActiveTrustedKeyGroups ∧
      r.ActiveTrustedSigners = d.ActiveTrustedSigners ∧
      r.InProgressInvalidationBatches = d.InProgressInvalidationBatches ∧
      r.Etag = op.ETag) := by
  constructor
  · intro r hr
    obtain ⟨p, hp, dl, s, hdl, hs, rfl⟩ := list_streamed_mem svc r hr
    exact ⟨rfl, rfl, rfl, rfl, rfl, p, hp, dl, hdl, hs⟩
  · refine ⟨_, getCloudfrontDistribution_lookup svc id op d cfg hget hd hc, ?_, hc.symm, rfl,
      rfl, rfl, rfl⟩
    intro info idQual hid
    rw [getCloudfrontDistribution_item svc info id idQual hid]
    exact getCloudfrontDistribution_lookup svc id op d cfg hget hd hc

theorem resolvedRecord_invariant_witness :
    sampleService.GetDistribution "A" = .ok sampleDetail ∧
    (∀ r ∈ (listAwsCloudfrontDistribution (.ok sampleService)).1,
      r.DistributionConfig = none ∧ r.ActiveTrustedKeyGroups = none ∧
      r.ActiveTrustedSigners = none ∧ r.InProgressInvalidationBatches = none ∧
      r.Etag = none ∧
      ∃ p ∈ sampleService.pages, ∃ dl, p.1.DistributionList = some dl ∧
        some r.toDistributionSummary ∈ dl.Items) :=
  ⟨rfl, (resolvedRecord_invariant sampleService "A" sampleDetail _ _ rfl rfl rfl).1⟩

theorem lookup_isSome_iff {β : Type} (f : HydrateFunc) (l : List (HydrateFunc × β)) :
    (l.lookup f).isSome = true ↔ f ∈ l.map Prod.fst := by
  induction l with
  | nil => simp
  | cons e rest ih =>
    obtain ⟨k, b⟩ := e
    by_cases hk : f = k
    · subst hk
      simp [List.lookup]
    · have hb : (f == k) = false := by simpa using hk
      simp only [List.lookup, hb, List.map_cons, List.mem_cons, hk, false_or]
      exact ih

theorem lookup_append_single {β : Type} (f g : HydrateFunc) (b : β) (l : List (HydrateFunc × β)) :
    (l ++ [(g, b)]).lookup f =
      match l.lookup f with
      | some x => some x
      | none => if g = f then some b else none := by
  induction l with
  | nil =>
    by_cases hk : g = f
    · subst hk
      simp [List.lookup]
    · have hb : (f == g) = false := by simpa using fun e => hk e.symm
      simp [List.lookup, hb, hk]
  | cons e rest ih =>
    obtain ⟨k, x⟩ := e
    by_cases hk : f = k
    · subst hk
      simp [List.lookup]
    · have hb : (f == k) = false := by simpa using hk
      simp only [List.cons_append, List.lookup, hb]
      exact ih

theorem hydrateColumn_none (session : Except GoError CloudFront) (ctx : ItemContext)
    (c : Column) (h : c.Hydrate = none) : hydrateColumn session ctx c = ctx := by
  simp only [hydrateColumn, h]

theorem hydrateColumn_cached (session : Except GoError CloudFront) (ctx : ItemContext)
    (c : Column) (g : HydrateFunc) (y : Go HydrateResult) (h : c.Hydrate = some g)
    (hl : ctx.calls.lookup g = some y) : hydrateColumn session ctx c = ctx := by
  simp only [hydrateColumn, h, hl]

theorem hydrateColumn_fresh (session : Except GoError CloudFront) (ctx : ItemContext)
    (c : Column) (g : HydrateFunc) (h : c.Hydrate = some g)
    (hl : ctx.calls.lookup g = none) :
    hydrateColumn session ctx c =
      { item := ctx.item
        calls := ctx.calls ++ [(g, callHydrate g session (some ctx.item) "")] } := by
  simp only [hydrateColumn, h, hl]

theorem hydrateColumn_spec (session : Except GoError CloudFront) (ctx : ItemContext) (c : Column)
    (hnd : (ctx.calls.map Prod.fst).Nodup) :
    (hydrateColumn session ctx c).item = ctx.item ∧
    ((hydrateColumn session ctx c).calls.map Prod.fst).Nodup ∧
    ∀ f, (hydrateColumn session ctx c).calls.lookup f =
      match ctx.calls.lookup f with
      | some x => some x
      | none =>
        if c.Hydrate = some f then some (callHydrate f session (some ctx.item) "") else none := by
  cases hh : c.Hydrate with
  | none =>
    rw [hydrateColumn_none session ctx c hh]
    refine ⟨rfl, hnd, fun f => ?_⟩
    cases ctx.calls.lookup f <;> simp
  | some g =>
    cases hl : ctx.calls.lookup g with
    | some y =>
      rw [hydrateColumn_cached session ctx c g y hh hl]
      refine ⟨rfl, hnd, fun f => ?_⟩
      by_cases hgf : g = f
      · subst hgf
        simp [hl]
      · cases ctx.calls.lookup f <;> simp [hgf]
    | none =>
      rw [hydrateColumn_fresh session ctx c g hh hl]
      refine ⟨rfl, ?_, fun f => ?_⟩
      · have hnot : g ∉ ctx.calls.map Prod.fst := by
          intro hm
          have := (lookup_isSome_iff g ctx.calls).2 hm
          rw [hl] at this
          cases this
        simp only [List.map_append, List.map_cons, List.map_nil]
        rw [List.nodup_append]
        refine ⟨hnd, List.nodup_singleton _, ?_⟩
        intro a ha hb
        have : a = g := by simpa using hb
        subst this
        exact hnot ha
      · simp only [lookup_append_single]
        by_cases hgf : g = f
        · subst hgf
          simp [hl]
        · cases ctx.calls.lookup f <;> simp [hgf]

theorem resolveItem_spec (session : Except GoError CloudFront) (requested : List Column)
    (ctx : ItemContext) (hnd : (ctx.calls.map Prod.fst).Nodup) :
    (resolveItem session ctx requested).item = ctx.item ∧
    ((resolveItem session ctx requested).calls.map Prod.fst).Nodup ∧
    ∀ f, (resolveItem session ctx requested).calls.lookup f =
      match ctx.calls.lookup f with
      | some x => some x
      | none =>
        if some f ∈ requested.map Column.Hydrate then
          some (callHydrate f session (some ctx.item) "")
        else none := by
  induction requested generalizing ctx with
  | nil =>
    refine ⟨rfl, hnd, fun f => ?_⟩
    simp only [resolveItem, List.foldl_nil, List.map_nil, List.not_mem_nil, if_false]
    cases ctx.calls.lookup f <;> rfl
  | cons c rest ih =>
    obtain ⟨hitem, hnd1, hlook⟩ := hydrateColumn_spec session ctx c hnd
    obtain ⟨hitem2, hnd2, hlook2⟩ := ih (hydrateColumn session ctx c) hnd1
    have hunf : resolveItem session ctx (c :: rest) =
        resolveItem session (hydrateColumn session ctx c) rest := rfl
    rw [hunf]
    refine ⟨hitem2.trans hitem, hnd2, fun f => ?_⟩
    rw [hlook2 f, hlook f, hitem]
    cases ctx.calls.lookup f with
    | some x => rfl
    | none =>
      by_cases hc : c.Hydrate = some f
      · simp [hc]
      · have hc2 : ¬ some f = c.Hydrate := fun e => hc e.symm
        simp [hc, hc2]

theorem detailCalls_eq_one (ctx : ItemContext) (hnd : (ctx.calls.map Prod.fst).Nodup)
    (x : Go HydrateResult) (h : ctx.calls.lookup .getCloudfrontDistribution = some x) :
    detailCalls ctx = 1 := by
  unfold detailCalls
  have hm : HydrateFunc.getCloudfrontDistribution ∈ ctx.calls.map Prod.fst := by
    rw [← lookup_isSome_iff, h]
    rfl
  exact List.count_eq_one_of_mem hnd hm

theorem getCloudfrontDistribution_error (svc : CloudFront) (idQual : String) (err : GoError)
    (hget : svc.GetDistribution idQual = .error err) :
    getCloudfrontDistribution (.ok svc) none idQual = .ok (none, some err) := by
  simp only [getCloudfrontDistribution, hget]

/-- C8: when the Detail call of a point lookup fails, `getCloudfrontDistribution`
returns that error unchanged and no record; the point lookup then yields zero
records and no error if the error is the provider's `NoSuchDistribution`, and
zero records and the unchanged error otherwise. -/
theorem pointLookup_not_found (awsRegionalColumns : List Column → List Column)
    (svc : CloudFront) (idQual : String) (err : GoError)
    (hget : svc.GetDistribution idQual = .error err) :
    getCloudfrontDistribution (.ok svc) none idQual = .ok (none, some err) ∧
    ((∃ message, err = .awsErr "NoSuchDistribution" message) →
      pointLookup (tableAwsCloudfrontDistribution awsRegionalColumns).Get (.ok svc) idQual =
        .ok ([], none)) ∧
    ((¬ ∃ message, err = .awsErr "NoSuchDistribution" message) →
      pointLookup (tableAwsCloudfrontDistribution awsRegionalColumns).Get (.ok svc) idQual =
        .ok ([], some err)) := by
  have hg := getCloudfrontDistribution_error svc idQual err hget
  refine ⟨hg, ?_, ?_⟩
  · rintro ⟨message, rfl⟩
    simp [pointLookup, tableAwsCloudfrontDistribution, callHydrate, hg, isNotFoundError]
  · intro hne
    have hfalse : isNotFoundError ["NoSuchDistribution"] err = false := by
      cases err with
      | awsErr code message =>
        have : code ≠ "NoSuchDistribution" := by
          rintro rfl
          exact hne ⟨message, rfl⟩
        simp [isNotFoundError, this]
      | other message => rfl
    simp [pointLookup, tableAwsCloudfrontDistribution, callHydrate, hg, hfalse]

theorem pointLookup_not_found_witness :
    sampleService.GetDistribution "Z" = .error (.awsErr "NoSuchDistribution" "not found") ∧
    pointLookup (tableAwsCloudfrontDistribution id).Get (.ok sampleService) "Z" =
      .ok ([], none) :=
  ⟨rfl, (pointLookup_not_found id sampleService "Z" _ rfl).2.1 ⟨"not found", rfl⟩⟩

theorem requested_id_enabled :
    requestedColumns distributionColumns ["id", "enabled"] =
      [{ Name := "id", ColType := .STRING }, { Name := "enabled", ColType := .BOOL }] := by
  decide

theorem resolveRow_id_enabled (session : Except GoError CloudFront) (r : distributionInfo) :
    resolveRow session (requestedColumns distributionColumns ["id", "enabled"]) { item := r } =
      ({ item := r },
        [("id", some (.ok (some (Value.ofString r.Id), none))),
          ("enabled", some (.ok (some (Value.ofBool r.Enabled), none)))]) := by
  rw [requested_id_enabled]
  rfl

/-- C9: dependency declaration. Every column of the column literal declares no
upstream call, the Detail fetch or the Tag fetch, and `id` and `enabled`
declare none. Hence for every listing (pages ending at the first page flagged
last), requesting only `id` and `enabled` requires no upstream call and yields
one row per listed summary, in order, holding that summary's identifier and
enabled flag, with no Detail or Tag call issued for the item. -/
theorem id_enabled_need_no_upstream_call (svc : CloudFront)
    (init : List (List DistributionSummary)) (last : List DistributionSummary)
    (hpages : svc.pages =
      init.map (fun items => (pageOf items, false)) ++ [(pageOf last, true)]) :
    (∀ c ∈ distributionColumns, c.Hydrate = none ∨
      c.Hydrate = some .getCloudfrontDistribution ∨
      c.Hydrate = some .getCloudfrontDistributionTags) ∧
    (∀ c ∈ distributionColumns, c.Name = "id" ∨ c.Name = "enabled" → c.Hydrate = none) ∧
    (requestedColumns distributionColumns ["id", "enabled"]).filterMap Column.Hydrate = [] ∧
    listRows (.ok svc) distributionColumns ["id", "enabled"] =
      (init ++ [last]).flatten.map (fun s =>
        ({ item := distributionInfo.ofSummary s, calls := [] },
          [("id", some (.ok (some (Value.ofString s.Id), none))),
            ("enabled", some (.ok (some (Value.ofBool s.Enabled), none)))])) := by
  refine ⟨by decide, by decide, by decide, ?_⟩
  unfold listRows
  rw [list_of_pages svc init last hpages]
  simp only [List.map_map]
  apply List.map_congr_left
  intro s _
  exact resolveRow_id_enabled (.ok svc) (distributionInfo.ofSummary s)

theorem id_enabled_need_no_upstream_call_witness :
    (sampleService.pages =
      [[({ Id := some "A", Enabled := some true } : DistributionSummary)]].map
          (fun items => (pageOf items, false)) ++
        [(pageOf [{ Id := some "B", Enabled := some false }], true)]) ∧
    listRows (.ok sampleService) distributionColumns ["id", "enabled"] =
      [({ item := distributionInfo.ofSummary { Id := some "A", Enabled := some true } },
          [("id", some (.ok (some (.string "A"), none))),
            ("enabled", some (.ok (some (.bool true), none)))]),
        ({ item := distributionInfo.ofSummary { Id := some "B", Enabled := some false } },
          [("id", some (.ok (some (.string "B"), none))),
            ("enabled", some (.ok (some (.bool false), none)))])] :=
  ⟨rfl, (id_enabled_need_no_upstream_call sampleService
    [[{ Id := some "A", Enabled := some true }]] [{ Id := some "B", Enabled := some false }]
    rfl).2.2.2⟩

theorem detail_column_requested (names : List String)
    (h : 3 ≤ (["e_tag", "active_trusted_key_groups", "active_trusted_signers",
      "default_root_object", "in_progress_invalidation_batches"].filter
        (fun n => names.contains n)).length) :
    some HydrateFunc.getCloudfrontDistribution ∈
      (requestedColumns distributionColumns names).map Column.Hydrate := by
  have hne : (["e_tag", "active_trusted_key_groups", "active_trusted_signers",
      "default_root_object", "in_progress_invalidation_batches"].filter
        (fun n => names.contains n)) ≠ [] := by
    intro e
    rw [e] at h
    simp at h
  obtain ⟨n, hn⟩ := List.exists_mem_of_ne_nil _ hne
  obtain ⟨hn5, hnames⟩ := List.mem_filter.1 hn
  have hcol : ∃ c ∈ distributionColumns, c.Name = n ∧
      c.Hydrate = some HydrateFunc.getCloudfrontDistribution := by
    simp only [List.mem_cons, List.mem_singleton, List.not_mem_nil, or_false] at hn5
    rcases hn5 with rfl | rfl | rfl | rfl | rfl <;> decide
  obtain ⟨c, hc, hname, hhyd⟩ := hcol
  refine List.mem_map.2 ⟨c, ?_, hhyd⟩
  unfold requestedColumns
  rw [List.mem_filter]
  exact ⟨hc, by rw [hname]; exact hnames⟩

theorem pointLookup_rows (get : GetConfig) (session : Except GoError CloudFront)
    (idQual : String) (rows : List ItemContext) (e : Option GoError)
    (h : pointLookup get session idQual = .ok (rows, e)) (ctx : ItemContext) (hctx : ctx ∈ rows) :
    ∃ x, ctx.calls = [(get.Hydrate, x)] := by
  unfold pointLookup at h
  split at h
  · cases h
  · split at h <;> cases h <;> simp at hctx
  · cases h
    simp only [List.mem_singleton] at hctx
    subst hctx
    exact ⟨_, rfl⟩
  · cases h
    simp at hctx

/-- C10: the Detail fetcher is invoked once per item. For every listed item and
every request naming three or more of `e_tag`, `active_trusted_key_groups`,
`active_trusted_signers`, `default_root_object` and
`in_progress_invalidation_batches`, resolving the item issues exactly one
`getCloudfrontDistribution` call, made for that item, and every requested
column that declares this hydrate is served from the result of that one call.
For the item of a point lookup the Detail fetch made up front stays the only
one. -/
theorem detail_fetched_once_per_item (session : Except GoError CloudFront)
    (r : distributionInfo) (names : List String)
    (h : 3 ≤ (["e_tag", "active_trusted_key_groups", "active_trusted_signers",
      "default_root_object", "in_progress_invalidation_batches"].filter
        (fun n => names.contains n)).length) :
    detailCalls (resolveItem session { item := r } (requestedColumns distributionColumns names))
      = 1 ∧
    (∀ c ∈ requestedColumns distributionColumns names,
      c.Hydrate = some .getCloudfrontDistribution →
      columnSource (resolveItem session { item := r }
          (requestedColumns distributionColumns names)) c =
        some (callHydrate .getCloudfrontDistribution session (some r) "")) ∧
    ∀ (awsRegionalColumns : List Column → List Column) (idQual : String)
      (rows : List ItemContext) (e : Option GoError),
      pointLookup (tableAwsCloudfrontDistribution awsRegionalColumns).Get session idQual =
        .ok (rows, e) →
      ∀ ctx ∈ rows,
        detailCalls (resolveItem session ctx (requestedColumns distributionColumns names)) = 1 := by
  have hreq := detail_column_requested names h
  obtain ⟨_, hnd, hlook⟩ := resolveItem_spec session
    (requestedColumns distributionColumns names) { item := r } List.nodup_nil
  have hmemo : (resolveItem session { item := r }
      (requestedColumns distributionColumns names)).calls.lookup .getCloudfrontDistribution =
      some (callHydrate .getCloudfrontDistribution session (some r) "") := by
    rw [hlook]
    simp [hreq]
  refine ⟨detailCalls_eq_one _ hnd _ hmemo, fun c _ hc => ?_, ?_⟩
  · simp only [columnSource, hc, hmemo]
  · intro aw idQual rows e hrows ctx hctx
    obtain ⟨x, hx⟩ := pointLookup_rows _ session idQual rows e hrows ctx hctx
    have hx2 : ctx.calls = [(HydrateFunc.getCloudfrontDistribution, x)] := hx
    have hnd0 : (ctx.calls.map Prod.fst).Nodup := by
      rw [hx2]
      exact List.nodup_singleton _
    obtain ⟨_, hnd1, hlook1⟩ := resolveItem_spec session
      (requestedColumns distributionColumns names) ctx hnd0
    refine detailCalls_eq_one _ hnd1 x ?_
    rw [hlook1, hx2]
    simp [List.lookup]

theorem detail_fetched_once_per_item_witness :
    3 ≤ (["e_tag", "active_trusted_key_groups", "active_trusted_signers",
      "default_root_object", "in_progress_invalidation_batches"].filter
        (fun n => ["e_tag", "default_root_object", "in_progress_invalidation_batches",
          "id"].contains n)).length ∧
    detailCalls (resolveItem (.ok sampleService)
      { item := distributionInfo.ofSummary { Id := some "A" } }
      (requestedColumns distributionColumns
        ["e_tag", "default_root_object", "in_progress_invalidation_batches", "id"])) = 1 :=
  ⟨by decide, (detail_fetched_once_per_item (.ok sampleService)
    (distributionInfo.ofSummary { Id := some "A" })
    ["e_tag", "default_root_object", "in_progress_invalidation_batches", "id"]
    (by decide)).1⟩

end Cloudfront
